import Mathlib

/-!
Verification development for the datacore repository.

The repository ships the fuzzy-suggest UI layer (`src/ui/fuzzy.tsx`,
`src/api/ui/modals/fuzzy-suggest.tsx`); the Datastore core (record model,
primary store, secondary indices, query parser/evaluator, mutation pipeline
and subscription manager) is described by the specification but its code is
not part of the source tree, so it is modelled here from the specification.
The UI-layer functions are translated directly from the TypeScript source.
-/

namespace Datacore

/-- Modelled from the spec (section 3, code missing from the source tree): a
Literal is a tagged value: null, boolean, number, string, date, duration,
link, ordered list of Literal, or a string-to-Literal mapping. Dates and
durations are carried as integers (epoch offset / length). -/
inductive Literal where
  | nul
  | boolean (b : Bool)
  | num (n : Int)
  | str (s : String)
  | date (d : Int)
  | dur (d : Int)
  | link (target : String)
  | list (xs : List Literal)
  | obj (entries : List (String × Literal))

mutual

/-- Structural equality test on literals (nested, so written by hand). -/
def litBeq : Literal → Literal → Bool
  | .nul, .nul => true
  | .boolean a, .boolean b => a == b
  | .num a, .num b => a == b
  | .str a, .str b => a == b
  | .date a, .date b => a == b
  | .dur a, .dur b => a == b
  | .link a, .link b => a == b
  | .list xs, .list ys => listBeq xs ys
  | .obj xs, .obj ys => objBeq xs ys
  | _, _ => false

/-- Elementwise equality test on literal lists. -/
def listBeq : List Literal → List Literal → Bool
  | [], [] => true
  | x :: xs, y :: ys => litBeq x y && listBeq xs ys
  | _, _ => false

/-- Elementwise equality test on field bags. -/
def objBeq : List (String × Literal) → List (String × Literal) → Bool
  | [], [] => true
  | (k, v) :: xs, (l, w) :: ys => k == l && litBeq v w && objBeq xs ys
  | _, _ => false

end

/-- The tag of a literal; cross-tag comparisons are never comparable. -/
inductive LTag where
  | nulT | boolT | numT | strT | dateT | durT | linkT | listT | objT
deriving DecidableEq

/-- Tag of a literal. -/
def litTag : Literal → LTag
  | .nul => .nulT
  | .boolean _ => .boolT
  | .num _ => .numT
  | .str _ => .strT
  | .date _ => .dateT
  | .dur _ => .durT
  | .link _ => .linkT
  | .list _ => .listT
  | .obj _ => .objT

/-- Modelled from the spec (section 3): equality is defined per tag;
cross-tag equality is "not comparable" (`none`). -/
def litEq (a b : Literal) : Option Bool :=
  if litTag a = litTag b then some (litBeq a b) else none

/-- Modelled from the spec (sections 3, 4.3): ordering is defined per tag on
the ordered tags; cross-tag ordering is "not comparable" (`none`). -/
def litOrd : Literal → Literal → Option Ordering
  | .num a, .num b => some (compare a b)
  | .date a, .date b => some (compare a b)
  | .dur a, .dur b => some (compare a b)
  | .str a, .str b => some (compare a b)
  | .link a, .link b => some (compare a b)
  | .boolean a, .boolean b => some (compare a b)
  | _, _ => none

/-- Comparison operators of the query grammar. -/
inductive CmpOp where
  | ceq | cne | clt | cle | cgt | cge
deriving DecidableEq

/-- Modelled from the spec (sections 4.3, 7): evaluate one field comparison;
a "not comparable" pair evaluates false rather than erroring. -/
def evalCmp (op : CmpOp) (a b : Literal) : Bool :=
  match op with
  | .ceq => (litEq a b).getD false
  | .cne => match litEq a b with | some r => !r | none => false
  | .clt => match litOrd a b with | some .lt => true | _ => false
  | .cle => match litOrd a b with | some .lt => true | some .eq => true | _ => false
  | .cgt => match litOrd a b with | some .gt => true | _ => false
  | .cge => match litOrd a b with | some .gt => true | some .eq => true | _ => false

/-- Record type variants (`sect` stands for the Section variant). -/
inductive RType where
  | file | page | sect | block | task
deriving DecidableEq

/-- Modelled from the spec (section 3): the unit of indexing. Records carry
a path so the path-prefix index and link resolution can be defined. -/
structure Record where
  id : Nat
  rtype : RType
  path : String
  fields : List (String × Literal)
  tags : List String
  links : List String
  parent : Option Nat
  children : List Nat

/-- Structural equality test on records ("identical field, tag and link
content under the same id"). -/
def recBeq (a b : Record) : Bool :=
  a.id == b.id && a.rtype == b.rtype && a.path == b.path &&
    objBeq a.fields b.fields && a.tags == b.tags && a.links == b.links &&
    a.parent == b.parent && a.children == b.children

/-- Look up a field of a record by name. -/
def findField (r : Record) (f : String) : Option Literal :=
  (r.fields.find? (fun e => e.1 == f)).map Prod.snd

/-- Primary store content: association list from id to record. -/
def lookupRecord (p : List (Nat × Record)) (i : Nat) : Option Record :=
  (p.find? (fun e => e.1 == i)).map Prod.snd

/-- Modelled from the spec (section 4.1): a secondary index is an inverted
structure relating one key dimension to ids; it is stored as the list of
(key, id) entries, and a lookup collects every id related to the key. -/
def buildIndex (keyOf : Record → List String) (p : List (Nat × Record)) : List (String × Nat) :=
  p.flatMap (fun e => (keyOf e.2).map (fun k => (k, e.1)))

/-- All ids a secondary index relates to key `k`. -/
def indexLookup (idx : List (String × Nat)) (k : String) : List Nat :=
  (idx.filter (fun e => e.1 == k)).map Prod.snd

/-- Modelled from the spec (sections 2, 4.1): the Datastore holds the
primary store and the four secondary indices (tag, backward link, path and
field-name). -/
structure Datastore where
  primary : List (Nat × Record)
  tagIndex : List (String × Nat)
  linkIndex : List (String × Nat)
  pathIndex : List (String × Nat)
  fieldIndex : List (String × Nat)

/-- Rebuild every secondary index from the primary store, restoring the
at-rest consistency invariant of section 3 at each batch commit. -/
def reindex (p : List (Nat × Record)) : Datastore :=
  { primary := p
    tagIndex := buildIndex (fun r => r.tags) p
    linkIndex := buildIndex (fun r => r.links) p
    pathIndex := buildIndex (fun r => [r.path]) p
    fieldIndex := buildIndex (fun r => r.fields.map Prod.fst) p }

/-- Faults of the defensive ancestor/descendant traversal. -/
inductive TravFault where
  | fuelExhausted | revisit
deriving DecidableEq

/-- Modelled from the spec (sections 4.3, 9): walk the parent chain from
`cur`, collecting visited ids; the walk is defensively fuel-bounded and a
revisit of an already-seen id is reported as a fault instead of looping. -/
def chainAux (p : List (Nat × Record)) : Nat → List Nat → Nat → Except TravFault (List Nat)
  | 0, _, _ => .error .fuelExhausted
  | fuel + 1, seen, cur =>
    if cur ∈ seen then .error .revisit
    else
      match lookupRecord p cur with
      | none => .ok seen
      | some r =>
        match r.parent with
        | none => .ok (cur :: seen)
        | some q => chainAux p fuel (cur :: seen) q

/-- The parent chain of `i` (including `i` itself when present), with the
defensive fuel bound set from the store size. -/
def primChain (p : List (Nat × Record)) (i : Nat) : Except TravFault (List Nat) :=
  chainAux p (p.length + 1) [] i

/-- The parent chain of `i` within a datastore. -/
def parentChain (s : Datastore) (i : Nat) : Except TravFault (List Nat) :=
  primChain s.primary i

/-- The strict ancestors of `i` (its parent chain without `i` itself). -/
def strictAncestors (s : Datastore) (i : Nat) : Except TravFault (List Nat) :=
  match parentChain s i with
  | .error e => .error e
  | .ok l => .ok (l.filter (fun x => decide (x ≠ i)))

/-- Modelled from the spec (section 3): the immutable query AST. -/
inductive IndexQuery where
  | tag (name : String)
  | path (pre : String)
  | fieldCompare (field : String) (op : CmpOp) (lit : Literal)
  | existsField (field : String)
  | linkedTo (target : String)
  | connected (target : String)
  | and (l r : IndexQuery)
  | or (l r : IndexQuery)
  | not (q : IndexQuery)
  | parentOf (q : IndexQuery)
  | childOf (q : IndexQuery)
  | typeFilter (variant : RType)

/-- The candidate universe: every id in the primary store. -/
def universeIds (s : Datastore) : List Nat := s.primary.map Prod.fst

/-- Ids of records whose path equals the target (link resolution). -/
def resolveByPath (s : Datastore) (t : String) : List Nat :=
  (s.pathIndex.filter (fun e => e.1 == t)).map Prod.snd

/-- Modelled from the spec (section 4.3, code missing from the source tree):
evaluate a query against the snapshot, producing the matching id set. Local
predicates use the secondary indices or a full scan; structural operators
combine id sets, with the parent-chain traversal defensively bounded and a
revisit reported as a structural fault instead of looping. -/
def evalQuery (s : Datastore) : IndexQuery → Except TravFault (List Nat)
  | .tag t => .ok (indexLookup s.tagIndex t)
  | .path pre => .ok ((s.pathIndex.filter (fun e => pre.isPrefixOf e.1)).map Prod.snd)
  | .fieldCompare f op lit =>
    .ok ((universeIds s).filter (fun i =>
      match lookupRecord s.primary i with
      | some r =>
        match findField r f with
        | some v => evalCmp op v lit
        | none => false
      | none => false))
  | .existsField f => .ok (indexLookup s.fieldIndex f)
  | .linkedTo t => .ok (indexLookup s.linkIndex t)
  | .connected t =>
    .ok (indexLookup s.linkIndex t ++
      (resolveByPath s t).flatMap (fun i =>
        match lookupRecord s.primary i with
        | some r => r.links.flatMap (fun tgt => resolveByPath s tgt)
        | none => []))
  | .and a b => do
    let x ← evalQuery s a
    let y ← evalQuery s b
    return x.filter (fun i => decide (i ∈ y))
  | .or a b => do
    let x ← evalQuery s a
    let y ← evalQuery s b
    return x ++ y.filter (fun i => decide (i ∉ x))
  | .not a => do
    let x ← evalQuery s a
    return (universeIds s).filter (fun i => decide (i ∉ x))
  | .parentOf q => do
    let xs ← evalQuery s q
    xs.foldlM (fun acc i => do
      let anc ← strictAncestors s i
      return acc ++ anc.filter (fun x => decide (x ∉ acc))) []
  | .childOf q => do
    let xs ← evalQuery s q
    (universeIds s).foldlM (fun acc d => do
      let anc ← strictAncestors s d
      return if anc.any (fun x => decide (x ∈ xs)) then acc ++ [d] else acc) []
  | .typeFilter v =>
    .ok ((s.primary.filter (fun e => e.2.rtype == v)).map Prod.fst)

/-- Modelled from the spec (sections 4.4, 7): the only mutation-batch error. -/
inductive StoreError where
  | invariantViolation
deriving DecidableEq

/-- Mutation operations accepted by the pipeline. -/
inductive Op where
  | add (r : Record)
  | update (r : Record)
  | remove (i : Nat)

/-- Modelled from the spec (section 4.4): the per-batch delta of changed ids. -/
structure Delta where
  added : List Nat
  updated : List Nat
  removed : List Nat
deriving DecidableEq

/-- The empty delta. -/
def emptyDelta : Delta := ⟨[], [], []⟩

/-- Replace the record stored under `r.id` in place. -/
def upsertEntry (p : List (Nat × Record)) (r : Record) : List (Nat × Record) :=
  p.map (fun e => if e.1 = r.id then (r.id, r) else e)

/-- Does the defensive parent-chain walk from `i` succeed? -/
def chainOk (p : List (Nat × Record)) (i : Nat) : Bool :=
  match primChain p i with
  | .ok _ => true
  | .error _ => false

/-- Is `d` a (transitive) descendant of `f`: `d` differs from `f` and the
parent chain of `d` passes through `f`. -/
def isDescendant (p : List (Nat × Record)) (f d : Nat) : Bool :=
  decide (d ≠ f) &&
    match primChain p d with
    | .ok l => decide (f ∈ l)
    | .error _ => false

/-- Modelled from the spec (sections 4.1, 4.4, 9): enumerate every
descendant of `f` for a cascading removal; a traversal fault (a revisit on
a chain) rejects the batch with an invariant violation. -/
def descendantIds (p : List (Nat × Record)) (f : Nat) : Except StoreError (List Nat) :=
  if (p.map Prod.fst).all (chainOk p) then
    .ok ((p.map Prod.fst).filter (fun d => isDescendant p f d))
  else .error .invariantViolation

/-- The ids a cascading removal of `f` deletes besides `f` itself: every id
whose parent chain passes through `f`. -/
def cascadeOf (p : List (Nat × Record)) (f : Nat) : List Nat :=
  (p.map Prod.fst).filter (fun x => isDescendant p f x)

/-- Modelled from the spec (section 4.4): apply one operation to the primary
store, accumulating the delta. Adding a duplicate id is an invariant
violation; an unchanged update contributes nothing to the delta; removing a
File-type record cascades over all of its descendants. -/
def applyOp (st : List (Nat × Record) × Delta) (op : Op) : Except StoreError (List (Nat × Record) × Delta) :=
  let (p, d) := st
  match op with
  | .add r =>
    match lookupRecord p r.id with
    | some _ => .error .invariantViolation
    | none => .ok (p ++ [(r.id, r)], { d with added := d.added ++ [r.id] })
  | .update r =>
    match lookupRecord p r.id with
    | some old =>
      if recBeq old r then .ok (p, d)
      else .ok (upsertEntry p r, { d with updated := d.updated ++ [r.id] })
    | none => .ok (p ++ [(r.id, r)], { d with added := d.added ++ [r.id] })
  | .remove i =>
    match lookupRecord p i with
    | none => .ok (p, d)
    | some r => do
      let cascade ← if r.rtype = RType.file then descendantIds p i else pure []
      let toRemove := cascade ++ [i]
      return (p.filter (fun e => decide (e.1 ∉ toRemove)),
        { d with removed := d.removed ++ toRemove })

/-- Every parent reference points at a stored record (no dangling parents). -/
def parentsValid (p : List (Nat × Record)) : Bool :=
  p.all (fun e =>
    match e.2.parent with
    | none => true
    | some q => (lookupRecord p q).isSome)

/-- Every parent chain walks to completion without a revisit. -/
def chainsValid (p : List (Nat × Record)) : Bool :=
  (p.map Prod.fst).all (chainOk p)

/-- Ids are unique in the primary store. -/
def keysNodup (p : List (Nat × Record)) : Bool :=
  decide (p.map Prod.fst).Nodup

/-- Modelled from the spec (sections 3, 4.4): the invariants checked at the
end of a mutation batch: unique ids, no dangling parents, acyclic chains. -/
def validPrimary (p : List (Nat × Record)) : Bool :=
  keysNodup p && parentsValid p && chainsValid p

/-- Well-formed datastore: valid primary content and secondary indices
consistent with it (the at-rest invariant of section 3). -/
def WFStore (s : Datastore) : Prop :=
  validPrimary s.primary = true ∧ s = reindex s.primary

/-- The secondary indices relate a key to an id exactly when the primary
store holds a record under that id carrying that key (the "indices reflect
the primary store" consistency of sections 3 and 4.4). -/
def indicesConsistent (s : Datastore) : Prop :=
  ∀ k i,
    ((k, i) ∈ s.tagIndex ↔ ∃ r, lookupRecord s.primary i = some r ∧ k ∈ r.tags) ∧
    ((k, i) ∈ s.linkIndex ↔ ∃ r, lookupRecord s.primary i = some r ∧ k ∈ r.links) ∧
    ((k, i) ∈ s.pathIndex ↔ ∃ r, lookupRecord s.primary i = some r ∧ k = r.path) ∧
    ((k, i) ∈ s.fieldIndex ↔ ∃ r, lookupRecord s.primary i = some r ∧ k ∈ r.fields.map Prod.fst)

/-- Modelled from the spec (section 4.4, code missing from the source tree):
apply a batch atomically. Either every operation lands and every index
structure is rebuilt to reflect the full batch, or the batch is rejected in
full, the store is returned at its pre-batch state and an invariant
violation is reported. -/
def applyBatch (ops : List Op) (s : Datastore) : Datastore × Except StoreError Delta :=
  match ops.foldlM applyOp (s.primary, emptyDelta) with
  | .error e => (s, .error e)
  | .ok (p, d) =>
    if validPrimary p then (reindex p, .ok d)
    else (s, .error .invariantViolation)

/-- Modelled from the spec (sections 3, 4.5): a live subscription. -/
structure Subscription where
  query : IndexQuery
  lastMatchIds : List Nat

/-- The diff delivered to a subscription callback. -/
structure DiffOut where
  added : List Nat
  removed : List Nat
  changed : List Nat
deriving DecidableEq

/-- Modelled from the spec (section 4.5, code missing from the source tree):
recompute one subscription after a batch: re-evaluate the query against the
new snapshot, diff against `lastMatchIds`, replace `lastMatchIds` and emit
the callback diff — skipping the callback entirely if the diff is empty. An
internal fault leaves `lastMatchIds` unchanged and emits nothing. -/
def notifyOne (s' : Datastore) (delta : Delta) (sub : Subscription) : Subscription × Option DiffOut :=
  match evalQuery s' sub.query with
  | .error _ => (sub, none)
  | .ok newIds =>
    let old := sub.lastMatchIds
    let added := newIds.filter (fun i => decide (i ∉ old))
    let removed := old.filter (fun i => decide (i ∉ newIds))
    let changed := newIds.filter (fun i => decide (i ∈ old) && decide (i ∈ delta.updated))
    if added = [] ∧ removed = [] ∧ changed = [] then (⟨sub.query, newIds⟩, none)
    else (⟨sub.query, newIds⟩, some ⟨added, removed, changed⟩)

/-- Recompute every subscription after a batch, collecting the emitted
callback diffs. -/
def notifyAll (s' : Datastore) (delta : Delta) : List Subscription → List Subscription × List DiffOut
  | [] => ([], [])
  | sub :: subs =>
    let r := notifyOne s' delta sub
    let rest := notifyAll s' delta subs
    (r.1 :: rest.1, match r.2 with | some d => d :: rest.2 | none => rest.2)

/-- Fixture records for instantiating the theorems on concrete stores: a
file owning a section owning a task. -/
def fixRec0 : Record := ⟨0, .file, "a.md", [("k", .num 1)], ["t"], ["b.md"], none, [1]⟩

/-- Fixture section record, child of the file record. -/
def fixRec1 : Record := ⟨1, .sect, "a.md", [], ["t"], [], some 0, [2]⟩

/-- Fixture task record, child of the section record. -/
def fixRec2 : Record := ⟨2, .task, "a.md", [("due", .str "tomorrow")], ["done"], [], some 1, []⟩

/-- Fixture store holding the three fixture records. -/
def fixStore : Datastore := reindex [(0, fixRec0), (1, fixRec1), (2, fixRec2)]

/-- The fixture section record with changed field content under the same id. -/
def fixRec1Changed : Record := ⟨1, .sect, "a.md", [("x", .num 2)], ["t"], [], some 0, [2]⟩

/-- A record on a parent cycle (violating the construction invariant). -/
def cycRecA : Record := ⟨5, .page, "c.md", [], ["c"], [], some 6, []⟩

/-- The other record of the parent cycle. -/
def cycRecB : Record := ⟨6, .page, "d.md", [], [], [], some 5, []⟩

/-- A store whose two records form a parent cycle. -/
def cycStore : Datastore := reindex [(5, cycRecA), (6, cycRecB)]

/-- Modelled from the spec (sections 4.2, 7): a parse-time error carrying
the offending byte offset and a human-readable message. -/
structure SynError where
  offset : Nat
  msg : String
deriving DecidableEq

/-- Tokens of the query grammar. -/
inductive Tok where
  | lparen | rparen
  | kwOr | kwAnd | kwNot | bang
  | atType (t : RType)
  | hashTag (name : String)
  | ident (name : String)
  | strLit (s : String)
  | numLit (n : Int)
  | boolLit (b : Bool)
  | wikiLink (target : String)
  | opEq | opNe | opGt | opGe | opLt | opLe
  | eofTok
deriving DecidableEq

/-- Characters allowed in identifiers, tags and field names. -/
def isIdentChar (c : Char) : Bool :=
  c.isAlphanum || c == '_' || c == '-' || c == '/' || c == '$' || c == '.'

/-- Map an at-type name to its record variant. -/
def rtypeOfName : String → Option RType
  | "page" => some .page
  | "sect" => some .sect
  | "section" => some .sect
  | "block" => some .block
  | "task" => some .task
  | "file" => some .file
  | _ => none

/-- Modelled from the spec (section 4.2, code missing from the source tree):
the tokenizer. Unterminated strings and links and unexpected characters are
reported with their byte offset; a trailing end-of-input token carries the
input length so the parser can cite the offset of a missing operand. -/
def tokAux (fuel : Nat) (cs : List Char) (pos : Nat) : Except SynError (List (Nat × Tok)) :=
  match fuel with
  | 0 => .error ⟨pos, "tokenizer limit exceeded"⟩
  | fuel + 1 =>
    match cs with
    | [] => .ok [(pos, .eofTok)]
    | c :: rest =>
      if c == ' ' || c == '\t' || c == '\n' || c == '\r' then tokAux fuel rest (pos + 1)
      else if c == '(' then do
        let ts ← tokAux fuel rest (pos + 1)
        return (pos, .lparen) :: ts
      else if c == ')' then do
        let ts ← tokAux fuel rest (pos + 1)
        return (pos, .rparen) :: ts
      else if c == '=' then do
        let ts ← tokAux fuel rest (pos + 1)
        return (pos, .opEq) :: ts
      else if c == '!' then
        match rest with
        | '=' :: rest' => do
          let ts ← tokAux fuel rest' (pos + 2)
          return (pos, .opNe) :: ts
        | _ => do
          let ts ← tokAux fuel rest (pos + 1)
          return (pos, .bang) :: ts
      else if c == '>' then
        match rest with
        | '=' :: rest' => do
          let ts ← tokAux fuel rest' (pos + 2)
          return (pos, .opGe) :: ts
        | _ => do
          let ts ← tokAux fuel rest (pos + 1)
          return (pos, .opGt) :: ts
      else if c == '<' then
        match rest with
        | '=' :: rest' => do
          let ts ← tokAux fuel rest' (pos + 2)
          return (pos, .opLe) :: ts
        | _ => do
          let ts ← tokAux fuel rest (pos + 1)
          return (pos, .opLt) :: ts
      else if c == '"' then
        let body := rest.takeWhile (fun x => x != '"')
        let rest' := rest.drop body.length
        match rest' with
        | '"' :: rest'' => do
          let ts ← tokAux fuel rest'' (pos + body.length + 2)
          return (pos, .strLit (String.mk body)) :: ts
        | _ => .error ⟨pos, "unterminated string"⟩
      else if c == '[' then
        match rest with
        | '[' :: rest1 =>
          let body := rest1.takeWhile (fun x => x != ']')
          let rest2 := rest1.drop body.length
          match rest2 with
          | ']' :: ']' :: rest3 => do
            let ts ← tokAux fuel rest3 (pos + body.length + 4)
            return (pos, .wikiLink (String.mk body)) :: ts
          | _ => .error ⟨pos, "unterminated link"⟩
        | _ => .error ⟨pos, "unexpected character"⟩
      else if c == '@' then
        let body := rest.takeWhile isIdentChar
        let rest' := rest.drop body.length
        match rtypeOfName (String.mk body) with
        | some t => do
          let ts ← tokAux fuel rest' (pos + body.length + 1)
          return (pos, .atType t) :: ts
        | none => .error ⟨pos, "unknown type filter"⟩
      else if c == '#' then
        let body := rest.takeWhile isIdentChar
        let rest' := rest.drop body.length
        if body.isEmpty then .error ⟨pos, "empty tag"⟩
        else do
          let ts ← tokAux fuel rest' (pos + body.length + 1)
          return (pos, .hashTag (String.mk body)) :: ts
      else if c.isDigit then
        let body := (c :: rest).takeWhile Char.isDigit
        let rest' := (c :: rest).drop body.length
        do
          let ts ← tokAux fuel rest' (pos + body.length)
          return (pos, .numLit (Int.ofNat ((String.mk body).toNat?.getD 0))) :: ts
      else if c.isAlpha then
        let body := (c :: rest).takeWhile isIdentChar
        let rest' := (c :: rest).drop body.length
        let name := String.mk body
        let tok :=
          if name == "or" then Tok.kwOr
          else if name == "and" then Tok.kwAnd
          else if name == "not" then Tok.kwNot
          else if name == "true" then Tok.boolLit true
          else if name == "false" then Tok.boolLit false
          else Tok.ident name
        do
          let ts ← tokAux fuel rest' (pos + body.length)
          return (pos, tok) :: ts
      else .error ⟨pos, "unexpected character"⟩

/-- Tokenize a query string. -/
def tokenize (text : String) : Except SynError (List (Nat × Tok)) :=
  tokAux (text.length + 1) text.toList 0

/-- Turn a literal-valued token into a literal, if it is one. -/
def litOfTok : Tok → Option Literal
  | .strLit s => some (.str s)
  | .numLit n => some (.num n)
  | .boolLit b => some (.boolean b)
  | .wikiLink t => some (.link t)
  | _ => none

/-- A link target written as a string or a wiki-link, if the token is one. -/
def linkTargetOfTok : Tok → Option String
  | .strLit s => some s
  | .wikiLink t => some t
  | _ => none

mutual

/-- Modelled from the spec (sections 4.2, 6): `orExpr`. -/
def parseOrE (fuel : Nat) (toks : List (Nat × Tok)) : Except SynError (IndexQuery × List (Nat × Tok)) :=
  match fuel with
  | 0 => .error ⟨0, "recursion limit exceeded"⟩
  | fuel + 1 => do
    let (l, rest) ← parseAndE fuel toks
    parseOrRest fuel l rest

/-- Trailing `("or" andExpr)*` repetition. -/
def parseOrRest (fuel : Nat) (acc : IndexQuery) (toks : List (Nat × Tok)) : Except SynError (IndexQuery × List (Nat × Tok)) :=
  match fuel with
  | 0 => .error ⟨0, "recursion limit exceeded"⟩
  | fuel + 1 =>
    match toks with
    | (_, .kwOr) :: rest => do
      let (r, rest') ← parseAndE fuel rest
      parseOrRest fuel (.or acc r) rest'
    | _ => .ok (acc, toks)

/-- Modelled from the spec (sections 4.2, 6): `andExpr`. -/
def parseAndE (fuel : Nat) (toks : List (Nat × Tok)) : Except SynError (IndexQuery × List (Nat × Tok)) :=
  match fuel with
  | 0 => .error ⟨0, "recursion limit exceeded"⟩
  | fuel + 1 => do
    let (l, rest) ← parseNotE fuel toks
    parseAndRest fuel l rest

/-- Trailing `("and" notExpr)*` repetition. -/
def parseAndRest (fuel : Nat) (acc : IndexQuery) (toks : List (Nat × Tok)) : Except SynError (IndexQuery × List (Nat × Tok)) :=
  match fuel with
  | 0 => .error ⟨0, "recursion limit exceeded"⟩
  | fuel + 1 =>
    match toks with
    | (_, .kwAnd) :: rest => do
      let (r, rest') ← parseNotE fuel rest
      parseAndRest fuel (.and acc r) rest'
    | _ => .ok (acc, toks)

/-- Modelled from the spec (sections 4.2, 6): `notExpr`, a leading `!` or
`not` negating the following atom or group. -/
def parseNotE (fuel : Nat) (toks : List (Nat × Tok)) : Except SynError (IndexQuery × List (Nat × Tok)) :=
  match fuel with
  | 0 => .error ⟨0, "recursion limit exceeded"⟩
  | fuel + 1 =>
    match toks with
    | (_, .kwNot) :: rest => do
      let (q, rest') ← parseNotE fuel rest
      return (.not q, rest')
    | (_, .bang) :: rest => do
      let (q, rest') ← parseNotE fuel rest
      return (.not q, rest')
    | _ => parseAtomE fuel toks

/-- Modelled from the spec (sections 4.2, 6): `atom`. Failures cite the
offset of the offending token (for a missing operand, the input length). -/
def parseAtomE (fuel : Nat) (toks : List (Nat × Tok)) : Except SynError (IndexQuery × List (Nat × Tok)) :=
  match fuel with
  | 0 => .error ⟨0, "recursion limit exceeded"⟩
  | fuel + 1 =>
    match toks with
    | (_, .lparen) :: rest => do
      let (q, rest') ← parseOrE fuel rest
      match rest' with
      | (_, .rparen) :: rest'' => .ok (q, rest'')
      | (off, _) :: _ => .error ⟨off, "expected closing parenthesis"⟩
      | [] => .error ⟨0, "expected closing parenthesis"⟩
    | (_, .atType t) :: rest => .ok (.typeFilter t, rest)
    | (_, .hashTag n) :: rest => .ok (.tag n, rest)
    | (identOff, .ident name) :: rest =>
      if name == "path" then
        match rest with
        | (_, .lparen) :: (_, .strLit s) :: (_, .rparen) :: rest' => .ok (.path s, rest')
        | (off, _) :: _ => .error ⟨off, "expected quoted path"⟩
        | [] => .error ⟨0, "expected quoted path"⟩
      else if name == "exists" then
        match rest with
        | (_, .lparen) :: (_, .ident f) :: (_, .rparen) :: rest' => .ok (.existsField f, rest')
        | (off, _) :: _ => .error ⟨off, "expected field name"⟩
        | [] => .error ⟨0, "expected field name"⟩
      else if name == "linkedto" then
        match rest with
        | (_, .lparen) :: (off2, t) :: (_, .rparen) :: rest' =>
          match linkTargetOfTok t with
          | some tgt => .ok (.linkedTo tgt, rest')
          | none => .error ⟨off2, "expected link target"⟩
        | (off, _) :: _ => .error ⟨off, "expected link target"⟩
        | [] => .error ⟨0, "expected link target"⟩
      else if name == "connected" then
        match rest with
        | (_, .lparen) :: (off2, t) :: (_, .rparen) :: rest' =>
          match linkTargetOfTok t with
          | some tgt => .ok (.connected tgt, rest')
          | none => .error ⟨off2, "expected link target"⟩
        | (off, _) :: _ => .error ⟨off, "expected link target"⟩
        | [] => .error ⟨0, "expected link target"⟩
      else if name == "parentof" then
        match rest with
        | (_, .lparen) :: rest1 => do
          let (q, rest2) ← parseOrE fuel rest1
          match rest2 with
          | (_, .rparen) :: rest3 => .ok (.parentOf q, rest3)
          | (off, _) :: _ => .error ⟨off, "expected closing parenthesis"⟩
          | [] => .error ⟨0, "expected closing parenthesis"⟩
        | (off, _) :: _ => .error ⟨off, "expected subquery"⟩
        | [] => .error ⟨0, "expected subquery"⟩
      else if name == "childof" then
        match rest with
        | (_, .lparen) :: rest1 => do
          let (q, rest2) ← parseOrE fuel rest1
          match rest2 with
          | (_, .rparen) :: rest3 => .ok (.childOf q, rest3)
          | (off, _) :: _ => .error ⟨off, "expected closing parenthesis"⟩
          | [] => .error ⟨0, "expected closing parenthesis"⟩
        | (off, _) :: _ => .error ⟨off, "expected subquery"⟩
        | [] => .error ⟨0, "expected subquery"⟩
      else
        match rest with
        | (opOff, opTok) :: (litOff, litTok) :: rest' =>
          let cmp :=
            match opTok with
            | .opEq => some CmpOp.ceq
            | .opNe => some CmpOp.cne
            | .opGt => some CmpOp.cgt
            | .opGe => some CmpOp.cge
            | .opLt => some CmpOp.clt
            | .opLe => some CmpOp.cle
            | _ => none
          match cmp with
          | none => .error ⟨opOff, "expected comparison operator"⟩
          | some op =>
            match litOfTok litTok with
            | some v => .ok (.fieldCompare name op v, rest')
            | none => .error ⟨litOff, "expected literal"⟩
        | (opOff, _) :: _ => .error ⟨opOff, "expected comparison operator"⟩
        | [] => .error ⟨identOff, "expected comparison operator"⟩
    | (off, .eofTok) :: _ => .error ⟨off, "unexpected end of query"⟩
    | (off, _) :: _ => .error ⟨off, "unexpected token"⟩
    | [] => .error ⟨0, "unexpected end of query"⟩

end

/-- Modelled from the spec (section 4.2, code missing from the source tree):
`parse(text)`: all-or-nothing parsing of a query string into the AST. -/
def parse (text : String) : Except SynError IndexQuery :=
  match tokenize text with
  | .error e => .error e
  | .ok toks => do
    let (q, rest) ← parseOrE (4 * toks.length + 8) toks
    match rest with
    | [(_, .eofTok)] => .ok q
    | (off, _) :: _ => .error ⟨off, "unexpected trailing input"⟩
    | [] => .ok q

/-- Modelled from the spec (section 7): a query error wraps a parse error or
an evaluation-time structural fault. -/
inductive QueryError where
  | parseFault (offset : Nat) (msg : String)
  | evalFault (f : TravFault)
deriving DecidableEq

/-- Modelled from the spec (sections 6, 7): the result type returned by the
one-shot query and search operations: success carries the match set,
failure carries the error; nothing is thrown. -/
inductive Result (α ε : Type) where
  | success (value : α)
  | failure (error : ε)

/-- The match set carried by a successful one-shot string query. -/
structure QueryData where
  data : List Record

/-- Modelled from the spec (section 6, code missing from the source tree):
`query(text)`: parse then evaluate, returning a result value rather than
throwing. -/
def dsQueryStr (s : Datastore) (text : String) : Result QueryData QueryError :=
  match parse text with
  | .error e => .failure (.parseFault e.offset e.msg)
  | .ok q =>
    match evalQuery s q with
    | .error f => .failure (.evalFault f)
    | .ok ids => .success ⟨ids.filterMap (lookupRecord s.primary)⟩

/-- The match set carried by a successful AST search. -/
structure SearchResult where
  results : List Record

/-- Modelled from the spec (section 6, code missing from the source tree):
evaluate an already-parsed query, returning a result value. -/
def dsSearch (s : Datastore) (q : IndexQuery) : Result SearchResult QueryError :=
  match evalQuery s q with
  | .error f => .failure (.evalFault f)
  | .ok ids => .success ⟨ids.filterMap (lookupRecord s.primary)⟩

/-- Modelled from the spec (sections 4.5, 6, 7, code missing from the
source tree): `subscribe(text, onDiff)`: parse then evaluate against the
snapshot at registration time. On success the registered subscription
carries the immediate synchronous initial result as its `lastMatchIds`;
on failure the error is returned as a result value rather than thrown. -/
def dsSubscribe (s : Datastore) (text : String) : Result Subscription QueryError :=
  match parse text with
  | .error e => .failure (.parseFault e.offset e.msg)
  | .ok q =>
    match evalQuery s q with
    | .error f => .failure (.evalFault f)
    | .ok ids => .success ⟨q, ids⟩

/-- A thrown JavaScript exception, as a value. -/
inductive JsError where
  | err (msg : String)
deriving DecidableEq

/-- A query given as a string or as an already-parsed AST
(`string | IndexQuery` in `fuzzy.tsx`). -/
inductive QueryInput where
  | qstr (text : String)
  | qast (q : IndexQuery)

/-- Modelled from the spec: `api.parseQuery` (not in the source tree) parses
a string input and passes an AST input through, throwing on a parse error. -/
def parseQueryInput : QueryInput → Except JsError IndexQuery
  | .qstr t =>
    match parse t with
    | .error e => .error (.err e.msg)
    | .ok q => .ok q
  | .qast q => .ok q

/-- Options for opening a fuzzy suggest modal (`FuzzySuggestOptions` in
`src/ui/fuzzy.tsx`). Promise-valued sources are carried resolved. -/
structure FuzzyOpts (T : Type) where
  items : Option (List T)
  getItems : Option (Unit → List T)
  query : Option QueryInput
  mapItem : Option (Record → T)

/-- Translation of `resolveItems` (`src/ui/fuzzy.tsx` lines 74 to 89): a
static `items` value takes precedence, then `getItems`, then the datacore
query (whose failure is rethrown as an exception); with none of the three
the empty list is returned. `castFn` stands for the `(x) => x as T`
default mapper. -/
def resolveItems {T : Type} (opts : FuzzyOpts T) (dc : Datastore) (castFn : Record → T) :
    Except JsError (List T) :=
  match opts.items with
  | some xs => .ok xs
  | none =>
    match opts.getItems with
    | some g => .ok (g ())
    | none =>
      match opts.query with
      | none => .ok []
      | some qi => do
        let q ← parseQueryInput qi
        match dsSearch dc q with
        | .failure _ => .error (.err "Failed to execute query")
        | .success ms => .ok (ms.results.map (opts.mapItem.getD castFn))

/-- An items source of `FuzzySuggestConfig`: a static array, or a function
that may throw (a rejected promise is a thrown error). -/
inductive ItemsSource (T : Type) where
  | arr (xs : List T)
  | fn (f : Unit → Except JsError (List T))

/-- Configuration for FuzzySuggest functionality (`FuzzySuggestConfig` in
`src/api/ui/modals/fuzzy-suggest.tsx`), restricted to the fields the modal
item-loading path reads. -/
structure FuzzySuggestConfig (T : Type) where
  items : Option (ItemsSource T)
  query : Option String
  transform : Option (List Record → Except JsError (List T))
  limit : Option Int

/-- The modal state that `loadItems` leaves behind: the loaded item list
(returned by `getItems()`) and the loading flag. -/
structure ModalState (T : Type) where
  items : List T
  isLoading : Bool
deriving DecidableEq

/-- JavaScript `Array.prototype.slice(0, e)`: a negative end counts from the
end of the array. -/
def jsSlice {T : Type} (xs : List T) (e : Int) : List T :=
  if 0 ≤ e then xs.take e.toNat
  else xs.take (xs.length - (-e).toNat)

/-- Translation of the limit step of `loadItems`
(`src/api/ui/modals/fuzzy-suggest.tsx` lines 107 to 110):
`if (this.config.limit && this.items.length > this.config.limit)
this.items = this.items.slice(0, this.config.limit)`. A zero limit is
falsy and skips the truncation. -/
def applyLimit {T : Type} (limit : Option Int) (xs : List T) : List T :=
  match limit with
  | none => xs
  | some l => if l ≠ 0 ∧ l < (xs.length : Int) then jsSlice xs l else xs

/-- The item-sourcing fallback chain of `loadItems`
(`src/api/ui/modals/fuzzy-suggest.tsx` lines 93 to 103): provided items
(array or function), else the empty list. -/
def fallbackItems {T : Type} (cfg : FuzzySuggestConfig T) : Except JsError (List T) :=
  match cfg.items with
  | some (.arr xs) => .ok xs
  | some (.fn f) => f ()
  | none => .ok []

/-- The body of the `try` block of `loadItems`
(`src/api/ui/modals/fuzzy-suggest.tsx` lines 80 to 103): with a truthy
query and a datacore instance the datastore query is used (a failed query
logs and yields the empty list); otherwise the provided items; otherwise
the empty list. `castList` stands for `result.value.data as T[]`. -/
def loadItemsCore {T : Type} (cfg : FuzzySuggestConfig T) (dc : Option Datastore)
    (castList : List Record → List T) : Except JsError (List T) :=
  match cfg.query, dc with
  | some q, some d =>
    if q ≠ "" then
      match dsQueryStr d q with
      | .success res =>
        match cfg.transform with
        | some tr => tr res.data
        | none => .ok (castList res.data)
      | .failure _ => .ok []
    else fallbackItems cfg
  | _, _ => fallbackItems cfg

/-- Translation of `DatacoreFuzzySuggestModal.loadItems`
(`src/api/ui/modals/fuzzy-suggest.tsx` lines 77 to 119): the try block
computes the items and applies the limit; any thrown error is caught and
empties the item list; the finally block clears `isLoading`. -/
def loadItems {T : Type} (cfg : FuzzySuggestConfig T) (dc : Option Datastore)
    (castList : List Record → List T) : ModalState T :=
  match loadItemsCore cfg dc castList with
  | .ok xs => { items := applyLimit cfg.limit xs, isLoading := false }
  | .error _ => { items := [], isLoading := false }

/-- A configuration with a zero limit and three static items. -/
def limitZeroCfg : FuzzySuggestConfig Nat := ⟨some (.arr [10, 20, 30]), none, none, some 0⟩

/-- A configuration with limit two and three static items. -/
def limitTwoCfg : FuzzySuggestConfig Nat := ⟨some (.arr [10, 20, 30]), none, none, some 2⟩

/-- A configuration whose query fails to parse. -/
def failQueryCfg : FuzzySuggestConfig Nat := ⟨none, some "@page and", none, none⟩

/-- A configuration whose transform throws. -/
def throwCfg : FuzzySuggestConfig Nat :=
  ⟨none, some "#t", some (fun _ => .error (.err "boom")), none⟩

/-- Options providing only a static items list. -/
def optsItems : FuzzyOpts Nat := ⟨some [7], none, none, none⟩

/-- Options providing only an items function. -/
def optsGet : FuzzyOpts Nat := ⟨none, some (fun _ => [8]), none, none⟩

/-- Options providing only a query. -/
def optsQuery : FuzzyOpts Nat := ⟨none, none, some (.qast (.tag "t")), none⟩

/-- Options providing no item source at all. -/
def optsNone : FuzzyOpts Nat := ⟨none, none, none, none⟩

/-- Options whose query evaluation faults on the cyclic store. -/
def cycOpts : FuzzyOpts Nat := ⟨none, none, some (.qast (.parentOf (.tag "c"))), none⟩

/-- Store keys not yet seen by the traversal: the traversal measure. -/
def notSeenKeys (p : List (Nat × Record)) (seen : List Nat) : Nat :=
  ((p.map Prod.fst).filter (fun x => decide (x ∉ seen))).length

/-! Infrastructure lemmas about the primary store and index builders. -/

mutual

theorem litBeq_refl : ∀ (a : Literal), litBeq a a = true
  | .nul => rfl
  | .boolean _ => by simp [litBeq]
  | .num _ => by simp [litBeq]
  | .str _ => by simp [litBeq]
  | .date _ => by simp [litBeq]
  | .dur _ => by simp [litBeq]
  | .link _ => by simp [litBeq]
  | .list xs => by simp [litBeq, listBeq_refl xs]
  | .obj xs => by simp [litBeq, objBeq_refl xs]

theorem listBeq_refl : ∀ (xs : List Literal), listBeq xs xs = true
  | [] => rfl
  | x :: xs => by simp [listBeq, litBeq_refl x, listBeq_refl xs]

theorem objBeq_refl : ∀ (xs : List (String × Literal)), objBeq xs xs = true
  | [] => rfl
  | (k, v) :: xs => by simp [objBeq, litBeq_refl v, objBeq_refl xs]

end

theorem recBeq_refl (a : Record) : recBeq a a = true := by
  simp [recBeq, objBeq_refl]


theorem lookupRecord_eq_none_iff {p : List (Nat × Record)} {i : Nat} :
    lookupRecord p i = none ↔ i ∉ p.map Prod.fst := by
  simp only [lookupRecord, Option.map_eq_none', List.find?_eq_none, List.mem_map, beq_iff_eq]
  constructor
  · rintro h ⟨⟨j, r⟩, hmem, rfl⟩
    exact h (j, r) hmem rfl
  · rintro h ⟨j, r⟩ hmem rfl
    exact h ⟨(j, r), hmem, rfl⟩

theorem lookupRecord_mem {p : List (Nat × Record)} {i : Nat} {r : Record}
    (h : lookupRecord p i = some r) : (i, r) ∈ p := by
  simp only [lookupRecord, Option.map_eq_some'] at h
  obtain ⟨⟨j, q⟩, hfind, rfl⟩ := h
  have hmem := List.mem_of_find?_eq_some hfind
  have hkey := List.find?_some hfind
  simp only [beq_iff_eq] at hkey
  simpa [hkey] using hmem

theorem lookupRecord_of_mem_nodup {p : List (Nat × Record)} {i : Nat} {r : Record}
    (hnd : (p.map Prod.fst).Nodup) (hmem : (i, r) ∈ p) : lookupRecord p i = some r := by
  induction p with
  | nil => cases hmem
  | cons e p ih =>
    simp only [List.map_cons, List.nodup_cons, List.mem_map] at hnd
    rcases List.mem_cons.mp hmem with heq | htl
    · subst heq
      simp [lookupRecord]
    · have hne : ¬(e.1 == i) = true := by
        simp only [beq_iff_eq]
        intro hcontra
        exact hnd.1 ⟨(i, r), htl, by simp [hcontra]⟩
      have hne' : (e.1 == i) = false := by
        rw [Bool.eq_false_iff]
        exact hne
      simp only [lookupRecord, List.find?, hne']
      exact ih hnd.2 htl

theorem mem_buildIndex_iff {keyOf : Record → List String} {p : List (Nat × Record)}
    {k : String} {i : Nat} :
    (k, i) ∈ buildIndex keyOf p ↔ ∃ r, (i, r) ∈ p ∧ k ∈ keyOf r := by
  simp only [buildIndex, List.mem_flatMap, List.mem_map]
  constructor
  · rintro ⟨⟨j, r⟩, hmem, k', hk', heq⟩
    obtain ⟨hk, hi⟩ := Prod.mk.injEq .. ▸ heq
    exact ⟨r, by simpa [← hi] using hmem, by simpa [hk] using hk'⟩
  · rintro ⟨r, hmem, hk⟩
    exact ⟨(i, r), hmem, k, hk, rfl⟩

theorem mem_indexLookup_iff {idx : List (String × Nat)} {k : String} {i : Nat} :
    i ∈ indexLookup idx k ↔ (k, i) ∈ idx := by
  simp only [indexLookup, List.mem_map, List.mem_filter, beq_iff_eq]
  constructor
  · rintro ⟨⟨k', i'⟩, ⟨hmem, hkeq⟩, rfl⟩
    subst hkeq
    exact hmem
  · intro hmem
    exact ⟨(k, i), ⟨hmem, rfl⟩, rfl⟩

theorem lookupRecord_filter_removed {p : List (Nat × Record)} {rm : List Nat} {d : Nat}
    (hd : d ∈ rm) :
    lookupRecord (p.filter (fun e => decide (e.1 ∉ rm))) d = none := by
  simp only [lookupRecord, Option.map_eq_none', List.find?_eq_none, beq_iff_eq]
  intro e hmem hkey
  have := (List.mem_filter.mp hmem).2
  rw [decide_eq_true_eq] at this
  exact this (hkey ▸ hd)

/-! Infrastructure lemmas about the defensive parent-chain traversal. -/

theorem length_filter_le_of_imp {l : List Nat} {q r : Nat → Bool}
    (h : ∀ x, r x = true → q x = true) :
    (l.filter r).length ≤ (l.filter q).length := by
  induction l with
  | nil => simp
  | cons b l ih =>
    by_cases hb : r b = true
    · rw [List.filter_cons_of_pos hb, List.filter_cons_of_pos (h b hb)]
      simpa using ih
    · rw [List.filter_cons_of_neg hb]
      by_cases hq : q b = true
      · rw [List.filter_cons_of_pos hq]
        simp only [List.length_cons]
        omega
      · rw [List.filter_cons_of_neg hq]
        exact ih

theorem filterP_cons_pos (p : Nat → Bool) (a : Nat) (l : List Nat) (h : p a = true) :
    (a :: l).filter p = a :: l.filter p := by
  simp [List.filter_cons, h]

theorem filterP_cons_neg (p : Nat → Bool) (a : Nat) (l : List Nat) (h : p a = false) :
    (a :: l).filter p = l.filter p := by
  simp [List.filter_cons, h]

theorem filter_notmem_cons_length_lt {l : List Nat} {a : Nat} {seen : List Nat}
    (ha : a ∈ l) (hns : a ∉ seen) :
    (l.filter (fun x => decide (x ∉ a :: seen))).length <
      (l.filter (fun x => decide (x ∉ seen))).length := by
  induction l with
  | nil => cases ha
  | cons b l ih =>
    by_cases hba : b = a
    · subst hba
      rw [filterP_cons_neg (fun x => decide (x ∉ b :: seen)) b l (by simp),
        filterP_cons_pos (fun x => decide (x ∉ seen)) b l (by simpa using hns)]
      have hle : (l.filter (fun x => decide (x ∉ b :: seen))).length ≤
          (l.filter (fun x => decide (x ∉ seen))).length := by
        apply length_filter_le_of_imp
        intro x hx
        simp only [decide_eq_true_eq, List.mem_cons, not_or] at hx ⊢
        exact hx.2
      simp only [List.length_cons]
      omega
    · have ha' : a ∈ l := by
        rcases List.mem_cons.mp ha with h | h
        · exact absurd h.symm hba
        · exact h
      by_cases hbs : b ∈ seen
      · rw [filterP_cons_neg (fun x => decide (x ∉ a :: seen)) b l (by simp [hbs]),
          filterP_cons_neg (fun x => decide (x ∉ seen)) b l (by simp [hbs])]
        exact ih ha'
      · rw [filterP_cons_pos (fun x => decide (x ∉ a :: seen)) b l (by simp [hbs, hba]),
          filterP_cons_pos (fun x => decide (x ∉ seen)) b l (by simp [hbs])]
        simp only [List.length_cons]
        exact Nat.succ_lt_succ (ih ha')

theorem chainAux_ok_length {p : List (Nat × Record)} :
    ∀ {fuel : Nat} {seen : List Nat} {cur : Nat} {l : List Nat},
      chainAux p fuel seen cur = .ok l → l.length ≤ seen.length + fuel := by
  intro fuel
  induction fuel with
  | zero => intro seen cur l h; simp [chainAux] at h
  | succ fuel ih =>
    intro seen cur l h
    rw [chainAux] at h
    split at h
    · cases h
    · split at h
      · cases h
        omega
      · split at h
        · cases h
          simp only [List.length_cons]
          omega
        · have := ih h
          simp only [List.length_cons] at this
          omega

theorem chainAux_not_fuelExhausted {p : List (Nat × Record)} :
    ∀ {fuel : Nat} {seen : List Nat} {cur : Nat},
      notSeenKeys p seen < fuel →
      chainAux p fuel seen cur ≠ .error .fuelExhausted := by
  intro fuel
  induction fuel with
  | zero => intro seen cur h; omega
  | succ fuel ih =>
    intro seen cur hlt
    rw [chainAux]
    by_cases hseen : cur ∈ seen
    · simp [hseen]
    · rw [if_neg hseen]
      cases hlook : lookupRecord p cur with
      | none => simp
      | some r =>
        cases hpar : r.parent with
        | none => simp [hpar]
        | some q =>
          simp only [hpar]
          apply ih
          have hcurkey : cur ∈ p.map Prod.fst := by
            by_contra hk
            rw [← lookupRecord_eq_none_iff] at hk
            rw [hk] at hlook
            cases hlook
          have hdec : notSeenKeys p (cur :: seen) < notSeenKeys p seen :=
            filter_notmem_cons_length_lt hcurkey hseen
          omega

theorem notSeenKeys_nil (p : List (Nat × Record)) : notSeenKeys p [] = p.length := by
  simp [notSeenKeys]

/-- C7: Every evaluation of the ancestor traversal used by `ParentOf` and
`ChildOf` terminates with a defensively bounded chain, or reports a
revisit (a cycle) as a fault rather than looping forever; the defensive
fuel bound is never the cause of failure. -/
theorem c7_traversal_bounded (s : Datastore) (i : Nat) :
    (∃ l, parentChain s i = .ok l ∧ l.length ≤ s.primary.length + 1) ∨
    parentChain s i = .error .revisit := by
  cases h : parentChain s i with
  | ok l =>
    left
    refine ⟨l, rfl, ?_⟩
    have hb := @chainAux_ok_length s.primary (s.primary.length + 1) [] i l h
    simpa using hb
  | error e =>
    cases e with
    | revisit => exact Or.inr rfl
    | fuelExhausted =>
      exfalso
      have hlt : notSeenKeys s.primary [] < s.primary.length + 1 := by
        rw [notSeenKeys_nil]
        omega
      exact @chainAux_not_fuelExhausted s.primary (s.primary.length + 1) [] i hlt h

theorem litOrd_eq_none_of_tag_ne {a b : Literal} (h : litTag a ≠ litTag b) :
    litOrd a b = none := by
  cases a <;> cases b <;> first | rfl | exact absurd rfl h

theorem evalCmp_false_of_tag_ne {a b : Literal} (op : CmpOp) (h : litTag a ≠ litTag b) :
    evalCmp op a b = false := by
  have hord := litOrd_eq_none_of_tag_ne h
  have heq : litEq a b = none := by simp [litEq, h]
  cases op <;> simp [evalCmp, hord, heq]

/-- C5: A field comparison never raises an error: it evaluates to an `ok`
id set for every store, and a record whose field is missing or whose field
value has a different tag than the compared literal is never a match. -/
theorem c5_mismatch_no_match (s : Datastore) (f : String) (op : CmpOp) (lit : Literal)
    (i : Nat) (r : Record) (hlook : lookupRecord s.primary i = some r)
    (hmm : findField r f = none ∨ ∃ v, findField r f = some v ∧ litTag v ≠ litTag lit) :
    ∃ ids, evalQuery s (.fieldCompare f op lit) = .ok ids ∧ i ∉ ids := by
  refine ⟨_, rfl, ?_⟩
  intro hmem
  have hpred := (List.mem_filter.mp hmem).2
  simp only [hlook] at hpred
  rcases hmm with hnone | ⟨v, hv, htag⟩
  · simp only [hnone] at hpred
    exact Bool.false_ne_true hpred
  · simp only [hv, evalCmp_false_of_tag_ne op htag] at hpred
    exact Bool.false_ne_true hpred

/-- Witness for C5 on the fixture store: the section record has no "k"
field, so the comparison evaluates without error and does not match it. -/
theorem c5_mismatch_no_match_witness :
    ∃ ids, evalQuery fixStore (.fieldCompare "k" .ceq (.num 1)) = .ok ids ∧ 1 ∉ ids :=
  c5_mismatch_no_match fixStore "k" .ceq (.num 1) 1 fixRec1 rfl (Or.inl rfl)

theorem validPrimary_parts {p : List (Nat × Record)} (hv : validPrimary p = true) :
    (p.map Prod.fst).Nodup ∧ parentsValid p = true ∧ chainsValid p = true := by
  simp only [validPrimary, Bool.and_eq_true, keysNodup, decide_eq_true_eq] at hv
  exact ⟨hv.1.1, hv.1.2, hv.2⟩

theorem mem_buildIndex_lookup_iff {keyOf : Record → List String} {p : List (Nat × Record)}
    (hnd : (p.map Prod.fst).Nodup) {k : String} {i : Nat} :
    (k, i) ∈ buildIndex keyOf p ↔ ∃ r, lookupRecord p i = some r ∧ k ∈ keyOf r := by
  rw [mem_buildIndex_iff]
  constructor
  · rintro ⟨r, hmem, hk⟩
    exact ⟨r, lookupRecord_of_mem_nodup hnd hmem, hk⟩
  · rintro ⟨r, hlook, hk⟩
    exact ⟨r, lookupRecord_mem hlook, hk⟩

theorem indicesConsistent_reindex {p : List (Nat × Record)} (hv : validPrimary p = true) :
    indicesConsistent (reindex p) := by
  have hnd := (validPrimary_parts hv).1
  intro k i
  refine ⟨@mem_buildIndex_lookup_iff (fun r => r.tags) p hnd k i,
    @mem_buildIndex_lookup_iff (fun r => r.links) p hnd k i, ?_,
    @mem_buildIndex_lookup_iff (fun r => r.fields.map Prod.fst) p hnd k i⟩
  have hpath := @mem_buildIndex_lookup_iff (fun r => [r.path]) p hnd k i
  simp only [List.mem_singleton] at hpath
  exact hpath

/-- C2: A batch is applied as a single atomic unit: either the batch
commits, the resulting store is well-formed and all four secondary
indices exactly reflect the post-batch primary store, or the batch is
rejected in full with an invariant violation and the returned store is
exactly the pre-batch store. -/
theorem c2_applyBatch_atomic (ops : List Op) (s : Datastore) :
    ((applyBatch ops s).2 = .error .invariantViolation ∧ (applyBatch ops s).1 = s) ∨
    (∃ d, (applyBatch ops s).2 = .ok d ∧ WFStore (applyBatch ops s).1 ∧
      indicesConsistent (applyBatch ops s).1) := by
  cases h : ops.foldlM applyOp (s.primary, emptyDelta) with
  | error e =>
    cases e
    have happ : applyBatch ops s = (s, .error .invariantViolation) := by
      unfold applyBatch
      rw [h]
    rw [happ]
    exact Or.inl ⟨rfl, rfl⟩
  | ok pd =>
    obtain ⟨p, d⟩ := pd
    by_cases hv : validPrimary p = true
    · have happ : applyBatch ops s = (reindex p, .ok d) := by
        unfold applyBatch
        rw [h]
        simp [hv]
      rw [happ]
      exact Or.inr ⟨d, rfl, ⟨hv, rfl⟩, indicesConsistent_reindex hv⟩
    · have happ : applyBatch ops s = (s, .error .invariantViolation) := by
        unfold applyBatch
        rw [h]
        simp [hv]
      rw [happ]
      exact Or.inl ⟨rfl, rfl⟩

/-- C4: After a committed removal batch for a File-type record, every
descendant id is gone from the primary store, is listed in the batch
delta's removed set, and is referenced by no entry of any secondary index. -/
theorem c4_remove_cascades (s : Datastore) (f d : Nat) (fr : Record) (s' : Datastore)
    (delta : Delta) (l : List Nat)
    (hWF : WFStore s) (hf : lookupRecord s.primary f = some fr) (hfile : fr.rtype = .file)
    (hchain : parentChain s d = .ok l) (hdl : f ∈ l) (hne : d ≠ f)
    (hcommit : applyBatch [.remove f] s = (s', .ok delta)) :
    d ∈ delta.removed ∧ lookupRecord s'.primary d = none ∧
    (∀ k, (k, d) ∉ s'.tagIndex) ∧ (∀ k, (k, d) ∉ s'.linkIndex) ∧
    (∀ k, (k, d) ∉ s'.pathIndex) ∧ (∀ k, (k, d) ∉ s'.fieldIndex) := by
  have hcv : chainsValid s.primary = true := (validPrimary_parts hWF.1).2.2
  have hdesc : descendantIds s.primary f = .ok (cascadeOf s.primary f) := by
    have hcv' : ((s.primary.map Prod.fst).all (chainOk s.primary)) = true := hcv
    unfold descendantIds
    rw [if_pos hcv']
    rfl
  rw [parentChain] at hchain
  have hdkey : d ∈ s.primary.map Prod.fst := by
    by_contra hk
    have hnone : lookupRecord s.primary d = none := lookupRecord_eq_none_iff.mpr hk
    rw [primChain, chainAux] at hchain
    rw [if_neg (List.not_mem_nil d)] at hchain
    rw [hnone] at hchain
    injection hchain with hl
    rw [← hl] at hdl
    cases hdl
  have hisd : isDescendant s.primary f d = true := by
    unfold isDescendant
    rw [hchain]
    simp [hne, hdl]
  have hdc : d ∈ cascadeOf s.primary f := by
    rw [cascadeOf, List.mem_filter]
    exact ⟨hdkey, hisd⟩
  have hdrm : d ∈ cascadeOf s.primary f ++ [f] :=
    List.mem_append.mpr (Or.inl hdc)
  have hop : applyOp (s.primary, emptyDelta) (Op.remove f) =
      .ok (s.primary.filter (fun e => decide (e.1 ∉ cascadeOf s.primary f ++ [f])),
        { emptyDelta with removed := emptyDelta.removed ++ (cascadeOf s.primary f ++ [f]) }) := by
    simp only [applyOp, hf, hfile, hdesc]
    rfl
  have hfold : List.foldlM applyOp (s.primary, emptyDelta) [Op.remove f] =
      .ok (s.primary.filter (fun e => decide (e.1 ∉ cascadeOf s.primary f ++ [f])),
        { emptyDelta with removed := emptyDelta.removed ++ (cascadeOf s.primary f ++ [f]) }) := by
    rw [List.foldlM_cons, hop]
    rfl
  have happ : applyBatch [Op.remove f] s =
      (if validPrimary (s.primary.filter (fun e => decide (e.1 ∉ cascadeOf s.primary f ++ [f]))) then
        (reindex (s.primary.filter (fun e => decide (e.1 ∉ cascadeOf s.primary f ++ [f]))),
          .ok { emptyDelta with removed := emptyDelta.removed ++ (cascadeOf s.primary f ++ [f]) })
      else (s, .error .invariantViolation)) := by
    unfold applyBatch
    rw [hfold]
  rw [happ] at hcommit
  by_cases hv : validPrimary (s.primary.filter (fun e => decide (e.1 ∉ cascadeOf s.primary f ++ [f]))) = true
  · rw [if_pos hv, Prod.mk.injEq] at hcommit
    obtain ⟨hs', hok⟩ := hcommit
    injection hok with hdelta
    subst hs'
    subst hdelta
    have hnotidx : ∀ (keyOf : Record → List String) (k : String),
        (k, d) ∉ buildIndex keyOf (s.primary.filter (fun e => decide (e.1 ∉ cascadeOf s.primary f ++ [f]))) := by
      intro keyOf k hmem
      rw [mem_buildIndex_iff] at hmem
      obtain ⟨r, hmemp, _⟩ := hmem
      have hpass := (List.mem_filter.mp hmemp).2
      rw [decide_eq_true_eq] at hpass
      exact hpass hdrm
    refine ⟨?_, ?_, hnotidx (fun r => r.tags), hnotidx (fun r => r.links),
      hnotidx (fun r => [r.path]), hnotidx (fun r => r.fields.map Prod.fst)⟩
    · simpa [emptyDelta] using hdrm
    · exact lookupRecord_filter_removed hdrm
  · rw [if_neg hv, Prod.mk.injEq] at hcommit
    cases hcommit.2

/-- Witness for C4 on the fixture store: removing the file record removes
the grandchild task record from the primary store, the delta and every
secondary index. -/
theorem c4_remove_cascades_witness :
    2 ∈ Delta.removed ⟨[], [], [1, 2, 0]⟩ ∧
    lookupRecord (applyBatch [.remove 0] fixStore).1.primary 2 = none ∧
    (∀ k, (k, 2) ∉ (applyBatch [.remove 0] fixStore).1.tagIndex) ∧
    (∀ k, (k, 2) ∉ (applyBatch [.remove 0] fixStore).1.linkIndex) ∧
    (∀ k, (k, 2) ∉ (applyBatch [.remove 0] fixStore).1.pathIndex) ∧
    (∀ k, (k, 2) ∉ (applyBatch [.remove 0] fixStore).1.fieldIndex) :=
  c4_remove_cascades fixStore 0 2 fixRec0 (applyBatch [.remove 0] fixStore).1
    ⟨[], [], [1, 2, 0]⟩ [0, 1, 2] ⟨rfl, rfl⟩ rfl rfl rfl (by decide) (by decide) rfl

/-- C1 (amended): for a steady subscription, an emitted diff is exact
(added is exactly the post-batch matches minus the pre-batch matches and
removed exactly the reverse), and the callback is skipped exactly when
added, removed and changed are all empty; a callback can still fire with
only changed ids. -/
theorem c1_diff_exact_skip_iff_empty (s s' : Datastore) (ops : List Op) (delta : Delta)
    (sub : Subscription) (preIds newIds : List Nat)
    (hb : applyBatch ops s = (s', .ok delta))
    (hpre : evalQuery s sub.query = .ok preIds)
    (hsteady : sub.lastMatchIds = preIds)
    (hpost : evalQuery s' sub.query = .ok newIds) :
    ∃ out, notifyOne s' delta sub = (⟨sub.query, newIds⟩, out) ∧
      (∀ dOut, out = some dOut →
        (∀ x, x ∈ dOut.added ↔ (x ∈ newIds ∧ x ∉ preIds)) ∧
        (∀ x, x ∈ dOut.removed ↔ (x ∈ preIds ∧ x ∉ newIds))) ∧
      (out = none ↔ ((∀ x, x ∈ newIds ↔ x ∈ preIds) ∧
        (∀ x, ¬(x ∈ newIds ∧ x ∈ preIds ∧ x ∈ delta.updated)))) := by
  subst hsteady
  unfold notifyOne
  rw [hpost]
  dsimp only
  by_cases hc : (newIds.filter (fun i => decide (i ∉ sub.lastMatchIds)) = [] ∧
      sub.lastMatchIds.filter (fun i => decide (i ∉ newIds)) = [] ∧
      newIds.filter (fun i => decide (i ∈ sub.lastMatchIds) && decide (i ∈ delta.updated)) = [])
  · rw [if_pos hc]
    refine ⟨none, rfl, ?_, ?_⟩
    · intro dOut h
      cases h
    · obtain ⟨hadd, hrem, hch⟩ := hc
      rw [List.filter_eq_nil_iff] at hadd hrem hch
      refine iff_of_true rfl ⟨?_, ?_⟩
      · intro x
        constructor
        · intro hx
          have h1 := hadd x hx
          simpa using h1
        · intro hx
          have h2 := hrem x hx
          simpa using h2
      · rintro x ⟨hxn, hxo, hxu⟩
        have h3 := hch x hxn
        simp only [Bool.and_eq_true, decide_eq_true_eq, not_and] at h3
        exact h3 hxo hxu
  · rw [if_neg hc]
    refine ⟨_, rfl, ?_, ?_⟩
    · intro dOut h
      injection h with h'
      subst h'
      constructor
      · intro x
        simp [List.mem_filter]
      · intro x
        simp [List.mem_filter]
    · refine iff_of_false (by simp) ?_
      rintro ⟨hiff, hnch⟩
      apply hc
      refine ⟨?_, ?_, ?_⟩
      · rw [List.filter_eq_nil_iff]
        intro a ha
        simp only [decide_eq_true_eq, not_not]
        exact (hiff a).mp ha
      · rw [List.filter_eq_nil_iff]
        intro a ha
        simp only [decide_eq_true_eq, not_not]
        exact (hiff a).mpr ha
      · rw [List.filter_eq_nil_iff]
        intro a ha
        simp only [Bool.and_eq_true, decide_eq_true_eq, not_and]
        intro hao hau
        exact hnch a ⟨ha, hao, hau⟩

/-- Witness for the amended C1 on the fixture store: an in-place update of
a matching record yields an exact (empty added and removed) diff. -/
theorem c1_diff_exact_witness :
    ∃ out, notifyOne (applyBatch [.update fixRec1Changed] fixStore).1 ⟨[], [1], []⟩
        ⟨.tag "t", [0, 1]⟩ = (⟨IndexQuery.tag "t", [0, 1]⟩, out) ∧
      (∀ dOut, out = some dOut →
        (∀ x, x ∈ dOut.added ↔ (x ∈ [0, 1] ∧ x ∉ [0, 1])) ∧
        (∀ x, x ∈ dOut.removed ↔ (x ∈ [0, 1] ∧ x ∉ [0, 1]))) ∧
      (out = none ↔ ((∀ x : Nat, x ∈ [0, 1] ↔ x ∈ [0, 1]) ∧
        (∀ x : Nat, ¬(x ∈ [0, 1] ∧ x ∈ [0, 1] ∧ x ∈ Delta.updated ⟨[], [1], []⟩)))) :=
  c1_diff_exact_skip_iff_empty fixStore (applyBatch [.update fixRec1Changed] fixStore).1
    [.update fixRec1Changed] ⟨[], [1], []⟩ ⟨.tag "t", [0, 1]⟩ [0, 1] [0, 1] rfl rfl rfl rfl

/-- C1 counterexample: on the fixture store, a batch that updates a
matching record in place produces an empty added set and an empty removed
set, yet the callback still fires (with the changed set), so "no callback
at all when both sets are empty" fails on the modelled subscription
manager. -/
theorem c1_changed_only_callback_cex :
    evalQuery fixStore (.tag "t") = .ok [0, 1] ∧
    (applyBatch [.update fixRec1Changed] fixStore).2 = .ok ⟨[], [1], []⟩ ∧
    (notifyOne (applyBatch [.update fixRec1Changed] fixStore).1 ⟨[], [1], []⟩
      ⟨.tag "t", [0, 1]⟩).2 = some ⟨[], [], [1]⟩ :=
  ⟨rfl, rfl, rfl⟩

theorem notifyOne_none_of_steady {s' : Datastore} {delta : Delta} {sub : Subscription}
    (heval : evalQuery s' sub.query = .ok sub.lastMatchIds) (hupd : delta.updated = []) :
    notifyOne s' delta sub = (⟨sub.query, sub.lastMatchIds⟩, none) := by
  have hadd : sub.lastMatchIds.filter (fun i => decide (i ∉ sub.lastMatchIds)) = [] :=
    List.filter_eq_nil_iff.mpr (fun a ha => by simp [ha])
  have hch : sub.lastMatchIds.filter
      (fun i => decide (i ∈ sub.lastMatchIds) && decide (i ∈ delta.updated)) = [] :=
    List.filter_eq_nil_iff.mpr (fun a ha => by simp [hupd])
  unfold notifyOne
  rw [heval]
  dsimp only
  rw [if_pos ⟨hadd, hadd, hch⟩]

theorem notifyAll_no_callbacks {s' : Datastore} {delta : Delta} (hupd : delta.updated = []) :
    ∀ (subs : List Subscription),
      (∀ sub ∈ subs, evalQuery s' sub.query = .ok sub.lastMatchIds) →
      (notifyAll s' delta subs).2 = []
  | [], _ => rfl
  | sub :: subs, hsteady => by
    have h1 := notifyOne_none_of_steady (hsteady sub (List.mem_cons_self sub subs)) hupd
    have ih := notifyAll_no_callbacks hupd subs (fun t ht => hsteady t (List.mem_cons_of_mem sub ht))
    simp only [notifyAll, h1]
    exact ih

/-- C6: re-ingesting a record unchanged (identical content, same id) makes
the batch commit with an empty delta, leaves the store untouched, and
triggers no subscription callback on any steady subscription. -/
theorem c6_unchanged_reingest (s : Datastore) (r : Record) (subs : List Subscription)
    (hWF : WFStore s) (hr : lookupRecord s.primary r.id = some r)
    (hsteady : ∀ sub ∈ subs, evalQuery s sub.query = .ok sub.lastMatchIds) :
    applyBatch [.update r] s = (s, .ok emptyDelta) ∧
    (notifyAll s emptyDelta subs).2 = [] := by
  have hop : applyOp (s.primary, emptyDelta) (Op.update r) = .ok (s.primary, emptyDelta) := by
    simp only [applyOp, hr, recBeq_refl]
    rfl
  have hfold : List.foldlM applyOp (s.primary, emptyDelta) [Op.update r] =
      .ok (s.primary, emptyDelta) := by
    rw [List.foldlM_cons, hop]
    rfl
  have happ : applyBatch [Op.update r] s = (s, .ok emptyDelta) := by
    unfold applyBatch
    rw [hfold]
    dsimp only
    rw [if_pos hWF.1]
    rw [← hWF.2]
  exact ⟨happ, notifyAll_no_callbacks rfl subs hsteady⟩

theorem applyLimit_nil {T : Type} (limit : Option Int) : applyLimit limit ([] : List T) = [] := by
  cases limit with
  | none => rfl
  | some l =>
    unfold applyLimit
    dsimp only
    by_cases hc : l ≠ 0 ∧ l < (([] : List T).length : Int)
    · rw [if_pos hc]
      simp [jsSlice]
    · rw [if_neg hc]

/-- C8 (amended): with a positive numeric limit, `loadItems` leaves exactly
the first `limit` loaded items — a prefix of the loaded list in its
original order, of length at most `limit`, and the full unchanged list
whenever it is no longer than the limit; with no limit the full list is
kept. (A zero or negative limit is falsy or slices from the end, see the
counterexample.) -/
theorem c8_limit_prefix (T : Type) (cfg : FuzzySuggestConfig T) (dc : Option Datastore)
    (castL : List Record → List T) (xs : List T)
    (h : loadItemsCore cfg dc castL = .ok xs) :
    (∀ l, cfg.limit = some l → 0 < l →
      (loadItems cfg dc castL).items = xs.take l.toNat ∧
      (loadItems cfg dc castL).items.length ≤ l.toNat ∧
      (∃ t, (loadItems cfg dc castL).items ++ t = xs) ∧
      ((xs.length : Int) ≤ l → (loadItems cfg dc castL).items = xs)) ∧
    (cfg.limit = none → (loadItems cfg dc castL).items = xs) := by
  have hload : loadItems cfg dc castL = ⟨applyLimit cfg.limit xs, false⟩ := by
    unfold loadItems
    rw [h]
  constructor
  · intro l hl hpos
    rw [hload]
    dsimp only
    rw [hl]
    unfold applyLimit
    dsimp only
    by_cases hc : l ≠ 0 ∧ l < (xs.length : Int)
    · rw [if_pos hc]
      unfold jsSlice
      rw [if_pos (le_of_lt hpos)]
      refine ⟨rfl, ?_, ⟨xs.drop l.toNat, List.take_append_drop _ _⟩, ?_⟩
      · simp only [List.length_take]
        omega
      · intro hlen
        exfalso
        have := hc.2
        omega
    · rw [if_neg hc]
      push_neg at hc
      have hlen : (xs.length : Int) ≤ l := hc (by omega)
      have hnat : xs.length ≤ l.toNat := by omega
      refine ⟨(List.take_of_length_le hnat).symm, ?_, ⟨[], List.append_nil _⟩, fun _ => rfl⟩
      exact le_trans (le_of_eq rfl) hnat
  · intro hl
    rw [hload]
    dsimp only
    rw [hl]
    rfl

/-- Witness for the amended C8: with limit two and three loaded items, the
modal keeps exactly the first two. -/
theorem c8_limit_prefix_witness :
    (loadItems limitTwoCfg none (fun _ => ([] : List Nat))).items = [10, 20] ∧
    (loadItems limitTwoCfg none (fun _ => ([] : List Nat))).items.length ≤ 2 := by
  have h := c8_limit_prefix Nat limitTwoCfg none (fun _ => []) [10, 20, 30] rfl
  have h2 := h.1 2 rfl (by decide)
  refine ⟨?_, h2.2.1⟩
  rw [h2.1]
  rfl

/-- C8 counterexample: a zero limit is numeric, yet `loadItems` keeps all
three loaded items because `0` is falsy in the JavaScript guard, so
"getItems() returns at most limit items" fails at limit zero. -/
theorem c8_limit_zero_cex :
    limitZeroCfg.limit = some 0 ∧
    (loadItems limitZeroCfg none (fun _ => ([] : List Nat))).items = [10, 20, 30] ∧
    ¬(((loadItems limitZeroCfg none (fun _ => ([] : List Nat))).items.length : Int) ≤ 0) :=
  ⟨rfl, rfl, by decide⟩

/-- C9: `resolveItems` chooses its source by fixed precedence: a provided
items value wins, then `getItems`, then the datacore query is parsed and
executed, and with none of the three provided the empty list is returned. -/
theorem c9_resolveItems_precedence (T : Type) (opts : FuzzyOpts T) (dc : Datastore)
    (castFn : Record → T) :
    (∀ xs, opts.items = some xs → resolveItems opts dc castFn = .ok xs) ∧
    (∀ g, opts.items = none → opts.getItems = some g →
      resolveItems opts dc castFn = .ok (g ())) ∧
    (∀ qi, opts.items = none → opts.getItems = none → opts.query = some qi →
      resolveItems opts dc castFn =
        (match parseQueryInput qi with
         | .error e => .error e
         | .ok q =>
           match dsSearch dc q with
           | .failure _ => .error (.err "Failed to execute query")
           | .success ms => .ok (ms.results.map (opts.mapItem.getD castFn)))) ∧
    (opts.items = none → opts.getItems = none → opts.query = none →
      resolveItems opts dc castFn = .ok []) := by
  refine ⟨?_, ?_, ?_, ?_⟩
  · intro xs h
    unfold resolveItems
    rw [h]
  · intro g h1 h2
    unfold resolveItems
    rw [h1, h2]
  · intro qi h1 h2 h3
    unfold resolveItems
    rw [h1, h2, h3]
    dsimp only
    cases hp : parseQueryInput qi <;> rfl
  · intro h1 h2 h3
    unfold resolveItems
    rw [h1, h2, h3]

/-- Witness for C9: each of the four source configurations resolves as the
precedence dictates on the fixture store. -/
theorem c9_resolveItems_witness :
    resolveItems optsItems fixStore (fun r => r.id) = .ok [7] ∧
    resolveItems optsGet fixStore (fun r => r.id) = .ok [8] ∧
    resolveItems optsQuery fixStore (fun r => r.id) = .ok [0, 1] ∧
    resolveItems optsNone fixStore (fun r => r.id) = .ok [] := by
  have h1 := (c9_resolveItems_precedence Nat optsItems fixStore (fun r => r.id)).1 [7] rfl
  have h2 := (c9_resolveItems_precedence Nat optsGet fixStore (fun r => r.id)).2.1
    (fun _ => [8]) rfl rfl
  have h3 := (c9_resolveItems_precedence Nat optsQuery fixStore (fun r => r.id)).2.2.1
    (.qast (.tag "t")) rfl rfl rfl
  have h4 := (c9_resolveItems_precedence Nat optsNone fixStore (fun r => r.id)).2.2.2 rfl rfl rfl
  refine ⟨h1, h2, ?_, h4⟩
  rw [h3]
  rfl

/-- C10: with a (truthy) query, a failed datastore query or a throwing
transform leaves the modal's item list empty; no exception escapes
`loadItems` (it always returns a final state) and `isLoading` is false
once it completes. -/
theorem c10_loadItems_failure_empty (T : Type) (cfg : FuzzySuggestConfig T) (dc : Datastore)
    (castL : List Record → List T) (q : String) :
    ((loadItems cfg (some dc) castL).isLoading = false) ∧
    (∀ e, cfg.query = some q → q ≠ "" → dsQueryStr dc q = .failure e →
      loadItems cfg (some dc) castL = ⟨[], false⟩) ∧
    (∀ res tr e, cfg.query = some q → q ≠ "" → dsQueryStr dc q = .success res →
      cfg.transform = some tr → tr res.data = .error e →
      loadItems cfg (some dc) castL = ⟨[], false⟩) := by
  refine ⟨?_, ?_, ?_⟩
  · unfold loadItems
    cases h : loadItemsCore cfg (some dc) castL <;> rfl
  · intro e hq hne hfail
    have hcore : loadItemsCore cfg (some dc) castL = .ok [] := by
      unfold loadItemsCore
      rw [hq]
      dsimp only
      rw [if_pos hne, hfail]
    unfold loadItems
    rw [hcore]
    dsimp only
    rw [applyLimit_nil]
  · intro res tr e hq hne hsucc htr herr
    have hcore : loadItemsCore cfg (some dc) castL = .error e := by
      unfold loadItemsCore
      rw [hq]
      dsimp only
      rw [if_pos hne, hsucc, htr]
      exact herr
    unfold loadItems
    rw [hcore]

/-- Witness for C10: a parse-failing query and a throwing transform both
leave the modal with an empty item list and `isLoading` cleared. -/
theorem c10_loadItems_failure_witness :
    loadItems failQueryCfg (some fixStore) (fun _ => ([] : List Nat)) = ⟨[], false⟩ ∧
    loadItems throwCfg (some fixStore) (fun _ => ([] : List Nat)) = ⟨[], false⟩ := by
  refine ⟨?_, ?_⟩
  · exact (c10_loadItems_failure_empty Nat failQueryCfg fixStore (fun _ => []) "@page and").2.1
      (.parseFault 9 "unexpected end of query") rfl (by decide) rfl
  · exact (c10_loadItems_failure_empty Nat throwCfg fixStore (fun _ => []) "#t").2.2
      ⟨[fixRec0, fixRec1]⟩ (fun _ => .error (.err "boom")) (.err "boom") rfl (by decide) rfl rfl rfl

/-- C3: the one-shot string query, the AST search and subscribe always
return a result value that is either a success carrying the match set (for
subscribe, the immediate initial match set of the registered subscription)
or a failure carrying the error (nothing is thrown) — subscribe fails with
exactly the error the one-shot query fails with — and both repository
callers inspect the success flag before touching the match set:
`loadItems` maps a failure to an empty item list and `resolveItems`
rethrows a failure as its own error without reading the match set. -/
theorem c3_result_discipline (s : Datastore) (text : String) (q : IndexQuery) (T : Type)
    (cfg : FuzzySuggestConfig T) (castL : List Record → List T)
    (opts : FuzzyOpts T) (castF : Record → T) :
    ((∃ ms, dsQueryStr s text = .success ms) ∨ (∃ e, dsQueryStr s text = .failure e)) ∧
    ((∃ ms, dsSearch s q = .success ms) ∨ (∃ e, dsSearch s q = .failure e)) ∧
    ((∃ sub, dsSubscribe s text = .success sub) ∨ (∃ e, dsSubscribe s text = .failure e)) ∧
    (∀ sub, dsSubscribe s text = .success sub →
      ∃ qp, parse text = .ok qp ∧ evalQuery s qp = .ok sub.lastMatchIds) ∧
    (∀ e, dsQueryStr s text = .failure e → dsSubscribe s text = .failure e) ∧
    (∀ e, dsQueryStr s text = .failure e → cfg.query = some text → text ≠ "" →
      (loadItems cfg (some s) castL).items = []) ∧
    (∀ e, dsSearch s q = .failure e → opts.items = none → opts.getItems = none →
      opts.query = some (.qast q) →
      resolveItems opts s castF = .error (.err "Failed to execute query")) := by
  refine ⟨?_, ?_, ?_, ?_, ?_, ?_, ?_⟩
  · cases h : dsQueryStr s text with
    | success ms => exact Or.inl ⟨ms, rfl⟩
    | failure e => exact Or.inr ⟨e, rfl⟩
  · cases h : dsSearch s q with
    | success ms => exact Or.inl ⟨ms, rfl⟩
    | failure e => exact Or.inr ⟨e, rfl⟩
  · cases h : dsSubscribe s text with
    | success sub => exact Or.inl ⟨sub, rfl⟩
    | failure e => exact Or.inr ⟨e, rfl⟩
  · intro sub hsub
    unfold dsSubscribe at hsub
    cases hp : parse text with
    | error pe =>
      simp only [hp] at hsub
      cases hsub
    | ok qp =>
      simp only [hp] at hsub
      cases he : evalQuery s qp with
      | error f =>
        simp only [he] at hsub
        cases hsub
      | ok ids =>
        simp only [he] at hsub
        injection hsub with h'
        subst h'
        exact ⟨qp, rfl, he⟩
  · intro e hfail
    unfold dsQueryStr at hfail
    unfold dsSubscribe
    cases hp : parse text with
    | error pe =>
      simp only [hp] at hfail ⊢
      injection hfail with h'
      rw [← h']
    | ok qp =>
      simp only [hp] at hfail ⊢
      cases he : evalQuery s qp with
      | error f =>
        simp only [he] at hfail ⊢
        injection hfail with h'
        rw [← h']
      | ok ids =>
        simp only [he] at hfail
        cases hfail
  · intro e hfail hq hne
    have hcore : loadItemsCore cfg (some s) castL = .ok [] := by
      unfold loadItemsCore
      rw [hq]
      dsimp only
      rw [if_pos hne, hfail]
    unfold loadItems
    rw [hcore]
    dsimp only
    rw [applyLimit_nil]
  · intro e hfail h1 h2 h3
    have heq : resolveItems opts s castF =
        (match dsSearch s q with
         | .failure _ => .error (.err "Failed to execute query")
         | .success ms => .ok (ms.results.map (opts.mapItem.getD castF))) := by
      unfold resolveItems
      rw [h1, h2, h3]
      rfl
    rw [heq, hfail]

/-- Witness for C3: the malformed query of the spec's scenario 4 makes the
modal fall back to an empty list and makes subscribe return the same
failure value, a successful subscribe carries the initial match set, and
an evaluation fault makes `resolveItems` throw after checking the flag. -/
theorem c3_result_witness :
    (loadItems failQueryCfg (some fixStore) (fun _ => ([] : List Nat))).items = [] ∧
    dsSubscribe fixStore "@page and" = .failure (.parseFault 9 "unexpected end of query") ∧
    (∃ qp, parse "#t" = .ok qp ∧
      evalQuery fixStore qp = .ok (Subscription.lastMatchIds ⟨.tag "t", [0, 1]⟩)) ∧
    resolveItems cycOpts cycStore (fun r => r.id) = .error (.err "Failed to execute query") := by
  refine ⟨?_, ?_, ?_, ?_⟩
  · exact (c3_result_discipline fixStore "@page and" (.tag "c") Nat failQueryCfg (fun _ => [])
      cycOpts (fun r => r.id)).2.2.2.2.2.1 (.parseFault 9 "unexpected end of query") rfl rfl
      (by decide)
  · exact (c3_result_discipline fixStore "@page and" (.tag "c") Nat failQueryCfg (fun _ => [])
      cycOpts (fun r => r.id)).2.2.2.2.1 (.parseFault 9 "unexpected end of query") rfl
  · exact (c3_result_discipline fixStore "#t" (.tag "c") Nat failQueryCfg (fun _ => [])
      cycOpts (fun r => r.id)).2.2.2.1 ⟨.tag "t", [0, 1]⟩ rfl
  · exact (c3_result_discipline cycStore "@page and" (.parentOf (.tag "c")) Nat failQueryCfg
      (fun _ => []) cycOpts (fun r => r.id)).2.2.2.2.2.2 (.evalFault .revisit) rfl rfl rfl rfl

/-- Witness for C6 on the fixture store: re-ingesting the fixture section
record unchanged commits an empty delta and fires no callback for the
steady subscription on its tag. -/
theorem c6_unchanged_reingest_witness :
    applyBatch [.update fixRec1] fixStore = (fixStore, .ok emptyDelta) ∧
    (notifyAll fixStore emptyDelta [⟨.tag "t", [0, 1]⟩]).2 = [] :=
  c6_unchanged_reingest fixStore fixRec1 [⟨.tag "t", [0, 1]⟩]
    ⟨rfl, rfl⟩ rfl (by intro sub hsub; simp at hsub; subst hsub; rfl)

end Datacore
